import Mathlib

/-!
Shallow embedding of `scripts/check_performance_regression.py`.

The script parses benchmark report text with three `re.search` calls
(case-insensitive), normalizes units, and validates the extracted metrics
against CLI thresholds.  Python floats are modelled as exact rationals (ℚ);
the file system is modelled by `Option String` (the contents of the results
file when it exists, `none` when it does not).  The regular-expression
searches are embedded as executable scanners over `List Char` that realize
the leftmost-match semantics of `re.search` for these specific patterns
(`.*?` is a lazy gap that may not cross a newline; `\s*` and `\d+` are
deterministic here because whitespace, digits and the literals that follow
them are disjoint character classes).  Case-insensitivity is modelled on
ASCII letters (the patterns' literals are ASCII except `μ`, which has no
ASCII case variant); `\d` and `\s` are modelled as the ASCII digits and
ASCII whitespace.
-/

/-- ASCII digit test, modelling `\d` of the patterns. -/
def isDigit (c : Char) : Bool := '0' ≤ c && c ≤ '9'

/-- ASCII whitespace test, modelling `\s` of the patterns. -/
def isSpace (c : Char) : Bool :=
  c = ' ' || c = '\t' || c = '\n' || c = '\r' || c = '\x0b' || c = '\x0c'

/-- Numeric value of a list of ASCII digits (most significant first). -/
def digitsVal (ds : List Char) : Nat :=
  ds.foldl (fun acc c => acc * 10 + (c.toNat - ('0').toNat)) 0

/-- Case-insensitive literal match: consumes `lit` (compared ASCII
case-insensitively) from the front of `cs`, returning the remainder. -/
def matchLitCI : List Char → List Char → Option (List Char)
  | [], cs => some cs
  | _ :: _, [] => none
  | l :: ls, c :: cs => if l.toLower = c.toLower then matchLitCI ls cs else none

/-- Embedding of the numeric subpattern `\d+(?:\.\d+)?` followed by
conversion through Python `float`: returns the exact rational value of the
matched decimal literal and the unconsumed remainder.  The quantifiers are
deterministic: `\d+` takes the maximal digit run (what follows in every
pattern is never a digit), and the optional fraction is taken exactly when
a dot followed by a digit is present. -/
def matchNumber (cs : List Char) : Option (ℚ × List Char) :=
  if (cs.takeWhile isDigit).isEmpty then none
  else
    match cs.dropWhile isDigit with
    | '.' :: rest2 =>
      if (rest2.takeWhile isDigit).isEmpty then
        some ((digitsVal (cs.takeWhile isDigit) : ℚ), cs.dropWhile isDigit)
      else
        some ((digitsVal (cs.takeWhile isDigit) : ℚ) +
            (digitsVal (rest2.takeWhile isDigit) : ℚ) /
              (10 : ℚ) ^ (rest2.takeWhile isDigit).length,
          rest2.dropWhile isDigit)
    | _ => some ((digitsVal (cs.takeWhile isDigit) : ℚ), cs.dropWhile isDigit)

/-- Alternation of literal units, e.g. `(ns|μs|ms)` or `(MB|GB)`: tries the
alternatives in order, case-insensitively, and returns the *original* text
of the match (as `re` group capture does) together with the remainder. -/
def matchUnitAlt : List (List Char) → List Char → Option (String × List Char)
  | [], _ => none
  | a :: rest, cs =>
    match matchLitCI a cs with
    | some r => some (String.mk (cs.take a.length), r)
    | none => matchUnitAlt rest cs

/-- Tail of the P99 pattern at a fixed position:
`99th percentile:\s*(\d+(?:\.\d+)?)\s*(ns|μs|ms)`. -/
def tryP99At (cs : List Char) : Option (ℚ × String) :=
  (matchLitCI (("99th percentile:").toList) cs).bind fun rest =>
    (matchNumber (rest.dropWhile isSpace)).bind fun p =>
      (matchUnitAlt [(("ns").toList), (("μs").toList), (("ms").toList)]
        (p.2.dropWhile isSpace)).map fun q => (p.1, q.1)

/-- Lazy gap `.*?` before the tail of the P99 pattern: tries the tail at
each position, consuming one non-newline character at a time (`.` does not
match a newline: `re.DOTALL` is not set). -/
def scanP99Gap : List Char → Option (ℚ × String)
  | [] => tryP99At []
  | c :: rest =>
    match tryP99At (c :: rest) with
    | some r => some r
    | none => if c = '\n' then none else scanP99Gap rest

/-- Embedding of
`re.search(r"input_latency.*?99th percentile:\s*(\d+(?:\.\d+)?)\s*(ns|μs|ms)", content, re.IGNORECASE)`:
scans start positions left to right, returning the captured numeric value
and unit text of the leftmost match. -/
def findP99 : List Char → Option (ℚ × String)
  | [] => none
  | c :: rest =>
    match matchLitCI (("input_latency").toList) (c :: rest) with
    | some after =>
      match scanP99Gap after with
      | some r => some r
      | none => findP99 rest
    | none => findP99 rest

/-- Tail of the cache pattern at a fixed position:
`hit rate:\s*(\d+(?:\.\d+)?)%`. -/
def tryCacheAt (cs : List Char) : Option ℚ :=
  (matchLitCI (("hit rate:").toList) cs).bind fun rest =>
    (matchNumber (rest.dropWhile isSpace)).bind fun p =>
      match p.2 with
      | c2 :: _ => if c2 = '%' then some p.1 else none
      | [] => none

/-- Lazy gap `.*?` before the tail of the cache pattern. -/
def scanCacheGap : List Char → Option ℚ
  | [] => tryCacheAt []
  | c :: rest =>
    match tryCacheAt (c :: rest) with
    | some r => some r
    | none => if c = '\n' then none else scanCacheGap rest

/-- Embedding of
`re.search(r"cache.*?hit rate:\s*(\d+(?:\.\d+)?)%", content, re.IGNORECASE)`. -/
def findCache : List Char → Option ℚ
  | [] => none
  | c :: rest =>
    match matchLitCI (("cache").toList) (c :: rest) with
    | some after =>
      match scanCacheGap after with
      | some r => some r
      | none => findCache rest
    | none => findCache rest

/-- The memory pattern at a fixed position:
`memory usage:\s*(\d+(?:\.\d+)?)\s*(MB|GB)` (no lazy gap inside). -/
def tryMemoryAt (cs : List Char) : Option (ℚ × String) :=
  (matchLitCI (("memory usage:").toList) cs).bind fun rest =>
    (matchNumber (rest.dropWhile isSpace)).bind fun p =>
      (matchUnitAlt [(("mb").toList), (("gb").toList)]
        (p.2.dropWhile isSpace)).map fun q => (p.1, q.1)

/-- Embedding of
`re.search(r"memory usage:\s*(\d+(?:\.\d+)?)\s*(MB|GB)", content, re.IGNORECASE)`. -/
def findMemory : List Char → Option (ℚ × String)
  | [] => none
  | c :: rest =>
    match tryMemoryAt (c :: rest) with
    | some r => some r
    | none => findMemory rest

/-- The metrics dictionary built by `parse_benchmark_results`: each of the
three keys is present (`some`) exactly when its pattern matched. -/
structure Metrics where
  p99_latency_ms : Option ℚ
  cache_hit_rate : Option ℚ
  memory_usage_mb : Option ℚ
deriving DecidableEq, Repr

/-- The empty metrics dictionary. -/
def Metrics.emptyDict : Metrics := ⟨none, none, none⟩

/-- Python `not metrics` on the dictionary: true iff no key is present. -/
def Metrics.isEmptyDict (m : Metrics) : Bool :=
  m.p99_latency_ms.isNone && m.cache_hit_rate.isNone && m.memory_usage_mb.isNone

/-- Embedding of `parse_benchmark_results`.  `none` models a results file
that does not exist (the `if not results_file.exists(): return {}` branch);
`some content` models an existing file with the given text.  Note the unit
comparisons `unit == "ns"`, `unit == "μs"`, `unit == "GB"` are exact,
as in the source, even though the search was case-insensitive. -/
def parse_benchmark_results : Option String → Metrics
  | none => Metrics.emptyDict
  | some content =>
    let cs := content.toList
    { p99_latency_ms :=
        (findP99 cs).map (fun p =>
          if p.2 = "ns" then p.1 / 1000000
          else if p.2 = "μs" then p.1 / 1000
          else p.1),
      cache_hit_rate := (findCache cs).map (fun v => v / 100),
      memory_usage_mb :=
        (findMemory cs).map (fun p =>
          if p.2 = "GB" then p.1 * 1024 else p.1) }

/-- The three CLI threshold flags (`argparse.Namespace` fields used by the
validator), with Python floats as exact rationals. -/
structure Args where
  max_p99_ms : ℚ
  min_hit_rate : ℚ
  max_memory_mb : ℚ

/-- Embedding of `validate_performance_targets`: `all_passed` starts true
and each present metric may clear it; printing is omitted. -/
def validate_performance_targets (metrics : Metrics) (args : Args) : Bool :=
  let all_passed := true
  let all_passed :=
    match metrics.p99_latency_ms with
    | some p99_latency =>
      if p99_latency > args.max_p99_ms then false else all_passed
    | none => all_passed
  let all_passed :=
    match metrics.cache_hit_rate with
    | some hit_rate =>
      if hit_rate < args.min_hit_rate then false else all_passed
    | none => all_passed
  let all_passed :=
    match metrics.memory_usage_mb with
    | some memory_usage =>
      if memory_usage > args.max_memory_mb then false else all_passed
    | none => all_passed
  all_passed

/-- Embedding of `main` (the exit code it returns): parse the results file,
soft-skip with exit 0 when the dictionary is empty, otherwise exit 0 iff
all evaluated metrics passed. -/
def mainExit (results_file : Option String) (args : Args) : Nat :=
  let metrics := parse_benchmark_results results_file
  if metrics.isEmptyDict then 0
  else if validate_performance_targets metrics args then 0 else 1

/-- Spec-side predicate: every metric present in the dictionary passes its
threshold (P99 ≤ max, hit rate ≥ min, memory ≤ max); absent metrics impose
nothing. -/
def metricsPassAll (m : Metrics) (a : Args) : Prop :=
  (∀ v, m.p99_latency_ms = some v → v ≤ a.max_p99_ms) ∧
  (∀ v, m.cache_hit_rate = some v → a.min_hit_rate ≤ v) ∧
  (∀ v, m.memory_usage_mb = some v → v ≤ a.max_memory_mb)

/-- Spec-side predicate: at least one present metric fails its threshold. -/
def someMetricFails (m : Metrics) (a : Args) : Prop :=
  (∃ v, m.p99_latency_ms = some v ∧ a.max_p99_ms < v) ∨
  (∃ v, m.cache_hit_rate = some v ∧ v < a.min_hit_rate) ∨
  (∃ v, m.memory_usage_mb = some v ∧ a.max_memory_mb < v)

theorem validate_eq_true_iff (m : Metrics) (a : Args) :
    validate_performance_targets m a = true ↔ metricsPassAll m a := by
  rcases m with ⟨p, c, w⟩
  unfold validate_performance_targets metricsPassAll
  rcases p with _ | p <;> rcases c with _ | c <;> rcases w with _ | w <;>
    simp [not_lt] <;> tauto

theorem someMetricFails_iff (m : Metrics) (a : Args) :
    someMetricFails m a ↔ ¬ metricsPassAll m a := by
  unfold someMetricFails metricsPassAll
  simp only [not_and_or, not_forall, Classical.not_imp, not_le, exists_prop]

theorem emptyDict_passes (m : Metrics) (a : Args)
    (h : m.isEmptyDict = true) : metricsPassAll m a := by
  rcases m with ⟨p, c, w⟩
  unfold Metrics.isEmptyDict at h
  simp only [Bool.and_eq_true, Option.isNone_iff_eq_none] at h
  obtain ⟨⟨hp, hc⟩, hw⟩ := h
  subst hp; subst hc; subst hw
  refine ⟨?_, ?_, ?_⟩ <;> intro v hv <;> simp at hv

/-- C1: for every results file and threshold configuration, the exit code
is 0 iff the parsed metrics dictionary is empty or every present metric
passes its threshold, and 1 iff at least one present metric fails its
threshold. -/
theorem c1_exit_code_policy (file : Option String) (args : Args) :
    (mainExit file args = 0 ↔
      ((parse_benchmark_results file).isEmptyDict = true ∨
        metricsPassAll (parse_benchmark_results file) args)) ∧
    (mainExit file args = 1 ↔
      someMetricFails (parse_benchmark_results file) args) := by
  unfold mainExit
  by_cases he : (parse_benchmark_results file).isEmptyDict = true
  · simp only [he, if_true]
    refine ⟨by simp, ?_⟩
    rw [someMetricFails_iff]
    simp [emptyDict_passes _ args he]
  · simp only [he, if_false]
    by_cases hv : validate_performance_targets (parse_benchmark_results file) args = true
    · simp only [hv, if_true]
      refine ⟨by simp [(validate_eq_true_iff _ args).mp hv], ?_⟩
      rw [someMetricFails_iff]
      simp [(validate_eq_true_iff _ args).mp hv]
    · simp only [hv, if_false]
      have hp : ¬ metricsPassAll (parse_benchmark_results file) args :=
        fun h => hv ((validate_eq_true_iff _ args).mpr h)
      refine ⟨by simp [he, hp], ?_⟩
      rw [someMetricFails_iff]
      simp [hp]

/-- C2: the validator returns true iff every metric present in the
dictionary passes its comparison (P99 ≤ max threshold, hit rate ≥ min
threshold, memory ≤ max threshold); absent metrics are skipped and never
cause a failure. -/
theorem c2_validator_iff (m : Metrics) (a : Args) :
    validate_performance_targets m a = true ↔ metricsPassAll m a :=
  validate_eq_true_iff m a

/-- State-threaded embedding of the P99 check inside
`validate_performance_targets`: the dictionary is passed along explicitly;
the source only reads it (`in`-test and subscript read). -/
def checkP99Step (a : Args) (s : Metrics × Bool) : Metrics × Bool :=
  match s.1.p99_latency_ms with
  | some p99_latency =>
    if p99_latency > a.max_p99_ms then (s.1, false) else (s.1, s.2)
  | none => (s.1, s.2)

/-- State-threaded embedding of the cache-hit-rate check. -/
def checkHitRateStep (a : Args) (s : Metrics × Bool) : Metrics × Bool :=
  match s.1.cache_hit_rate with
  | some hit_rate =>
    if hit_rate < a.min_hit_rate then (s.1, false) else (s.1, s.2)
  | none => (s.1, s.2)

/-- State-threaded embedding of the memory check. -/
def checkMemoryStep (a : Args) (s : Metrics × Bool) : Metrics × Bool :=
  match s.1.memory_usage_mb with
  | some memory_usage =>
    if memory_usage > a.max_memory_mb then (s.1, false) else (s.1, s.2)
  | none => (s.1, s.2)

/-- The whole validator as a sequence of state-threaded steps starting from
`all_passed = true`. -/
def validateRun (m : Metrics) (a : Args) : Metrics × Bool :=
  checkMemoryStep a (checkHitRateStep a (checkP99Step a (m, true)))

/-- C10: running the validator leaves the metrics dictionary unchanged (it
only reads entries), and its boolean outcome is that of
`validate_performance_targets`. -/
theorem c10_validator_frame (m : Metrics) (a : Args) :
    (validateRun m a).1 = m ∧
    (validateRun m a).2 = validate_performance_targets m a := by
  rcases m with ⟨p, c, w⟩
  rcases p with _ | p <;> rcases c with _ | c <;> rcases w with _ | w <;>
    simp only [validateRun, checkP99Step, checkHitRateStep, checkMemoryStep,
      validate_performance_targets, apply_ite Prod.fst, apply_ite Prod.snd,
      ite_self] <;>
    exact ⟨trivial, trivial⟩

theorem matchNumber_nonneg {cs : List Char} {v : ℚ} {r : List Char}
    (h : matchNumber cs = some (v, r)) : 0 ≤ v := by
  unfold matchNumber at h
  split at h
  · exact absurd h (by simp)
  · split at h
    · split at h <;>
        (simp only [Option.some.injEq, Prod.mk.injEq] at h;
         obtain ⟨hv, -⟩ := h; subst hv; positivity)
    · simp only [Option.some.injEq, Prod.mk.injEq] at h
      obtain ⟨hv, -⟩ := h
      subst hv
      positivity

theorem tryP99At_nonneg {cs : List Char} {v : ℚ} {u : String}
    (h : tryP99At cs = some (v, u)) : 0 ≤ v := by
  unfold tryP99At at h
  simp only [Option.bind_eq_some, Option.map_eq_some'] at h
  obtain ⟨rest, -, ⟨v2, rest2⟩, hp, ⟨u2, r2⟩, -, hq⟩ := h
  simp only [Prod.mk.injEq] at hq
  exact hq.1 ▸ matchNumber_nonneg hp

theorem scanP99Gap_nonneg : ∀ {cs : List Char} {v : ℚ} {u : String},
    scanP99Gap cs = some (v, u) → 0 ≤ v := by
  intro cs
  induction cs with
  | nil =>
    intro v u h
    simp only [scanP99Gap] at h
    exact tryP99At_nonneg h
  | cons c rest ih =>
    intro v u h
    simp only [scanP99Gap] at h
    split at h
    · rename_i r h1
      injection h with hr
      subst hr
      exact tryP99At_nonneg h1
    · rename_i h1
      split at h
      · exact absurd h (by simp)
      · exact ih h

theorem findP99_nonneg : ∀ {cs : List Char} {v : ℚ} {u : String},
    findP99 cs = some (v, u) → 0 ≤ v := by
  intro cs
  induction cs with
  | nil => intro v u h; simp [findP99] at h
  | cons c rest ih =>
    intro v u h
    simp only [findP99] at h
    split at h
    · split at h
      · rename_i r h2
        injection h with hr
        subst hr
        exact scanP99Gap_nonneg h2
      · exact ih h
    · exact ih h

theorem tryCacheAt_nonneg {cs : List Char} {v : ℚ}
    (h : tryCacheAt cs = some v) : 0 ≤ v := by
  unfold tryCacheAt at h
  simp only [Option.bind_eq_some] at h
  obtain ⟨rest, -, ⟨v2, rest2⟩, hp, hm⟩ := h
  have h0 := matchNumber_nonneg hp
  rcases rest2 with _ | ⟨c2, r2⟩
  · simp at hm
  · simp only [Option.ite_none_right_eq_some, Option.some.injEq] at hm
    exact hm.2 ▸ h0

theorem scanCacheGap_nonneg : ∀ {cs : List Char} {v : ℚ},
    scanCacheGap cs = some v → 0 ≤ v := by
  intro cs
  induction cs with
  | nil =>
    intro v h
    simp only [scanCacheGap] at h
    exact tryCacheAt_nonneg h
  | cons c rest ih =>
    intro v h
    simp only [scanCacheGap] at h
    split at h
    · rename_i r h1
      injection h with hr
      subst hr
      exact tryCacheAt_nonneg h1
    · rename_i h1
      split at h
      · exact absurd h (by simp)
      · exact ih h

theorem findCache_nonneg : ∀ {cs : List Char} {v : ℚ},
    findCache cs = some v → 0 ≤ v := by
  intro cs
  induction cs with
  | nil => intro v h; simp [findCache] at h
  | cons c rest ih =>
    intro v h
    simp only [findCache] at h
    split at h
    · split at h
      · rename_i r h2
        injection h with hr
        subst hr
        exact scanCacheGap_nonneg h2
      · exact ih h
    · exact ih h

theorem tryMemoryAt_nonneg {cs : List Char} {v : ℚ} {u : String}
    (h : tryMemoryAt cs = some (v, u)) : 0 ≤ v := by
  unfold tryMemoryAt at h
  simp only [Option.bind_eq_some, Option.map_eq_some'] at h
  obtain ⟨rest, -, ⟨v2, rest2⟩, hp, ⟨u2, r2⟩, -, hq⟩ := h
  simp only [Prod.mk.injEq] at hq
  exact hq.1 ▸ matchNumber_nonneg hp

theorem findMemory_nonneg : ∀ {cs : List Char} {v : ℚ} {u : String},
    findMemory cs = some (v, u) → 0 ≤ v := by
  intro cs
  induction cs with
  | nil => intro v u h; simp [findMemory] at h
  | cons c rest ih =>
    intro v u h
    simp only [findMemory] at h
    split at h
    · rename_i r h1
      injection h with hr
      subst hr
      exact tryMemoryAt_nonneg h1
    · exact ih h

/-- Evaluation of the P99 field of the parser on a successful search. -/
theorem parse_p99_eq (content : String) {v : ℚ} {u : String}
    (h : findP99 content.toList = some (v, u)) :
    (parse_benchmark_results (some content)).p99_latency_ms
      = some (if u = "ns" then v / 1000000
              else if u = "μs" then v / 1000 else v) := by
  show (findP99 content.toList).map _ = _
  rw [h]
  rfl

/-- Evaluation of the cache-hit-rate field of the parser on a successful
search. -/
theorem parse_cache_eq (content : String) {v : ℚ}
    (h : findCache content.toList = some v) :
    (parse_benchmark_results (some content)).cache_hit_rate = some (v / 100) := by
  show (findCache content.toList).map _ = _
  rw [h]
  rfl

/-- Evaluation of the memory field of the parser on a successful search. -/
theorem parse_memory_eq (content : String) {v : ℚ} {u : String}
    (h : findMemory content.toList = some (v, u)) :
    (parse_benchmark_results (some content)).memory_usage_mb
      = some (if u = "GB" then v * 1024 else v) := by
  show (findMemory content.toList).map _ = _
  rw [h]
  rfl

/-- C3: whenever the P99 latency pattern matches with numeric value `v` and
unit text `u`, the parser stores `p99_latency_ms` as `v / 1000000` when `u`
is `ns`, `v / 1000` when `u` is `μs`, and `v` unchanged when `u` is `ms`;
in particular an input containing
`input_latency p99 99th percentile: 25000 ns` parses to 0.025 ms. -/
theorem c3_p99_unit_conversion :
    (∀ (content : String) (v : ℚ) (u : String),
      findP99 content.toList = some (v, u) →
        ((u = "ns" →
            (parse_benchmark_results (some content)).p99_latency_ms
              = some (v / 1000000)) ∧
         (u = "μs" →
            (parse_benchmark_results (some content)).p99_latency_ms
              = some (v / 1000)) ∧
         (u = "ms" →
            (parse_benchmark_results (some content)).p99_latency_ms = some v))) ∧
    (parse_benchmark_results
        (some ("input_latency p99 99th percentile: 25000 ns"))).p99_latency_ms
      = some (25 / 1000) := by
  constructor
  · intro content v u h
    refine ⟨?_, ?_, ?_⟩ <;> intro hu <;> subst hu <;> rw [parse_p99_eq _ h] <;> simp
  · have h : findP99 (("input_latency p99 99th percentile: 25000 ns").toList)
        = some (25000, "ns") := by decide
    rw [parse_p99_eq _ h]
    simp only [Option.some.injEq]
    norm_num

/-- Closed instance of `c3_p99_unit_conversion` with the hypothesis
discharged at a concrete input. -/
theorem c3_p99_unit_conversion_witness :
    (parse_benchmark_results
        (some ("input_latency 99th percentile: 5 ms"))).p99_latency_ms
      = some 5 :=
  (c3_p99_unit_conversion.1 ("input_latency 99th percentile: 5 ms") 5 ("ms")
    (by decide)).2.2 rfl

/-- C4: whenever the memory usage pattern matches with numeric value `v`
and unit text `u`, the parser stores `memory_usage_mb` as `v * 1024` when
`u` is `GB` and `v` unchanged when `u` is `MB`; in particular an input
containing `Memory usage: 2 GB` parses to 2048.0 MB. -/
theorem c4_memory_unit_conversion :
    (∀ (content : String) (v : ℚ) (u : String),
      findMemory content.toList = some (v, u) →
        ((u = "GB" →
            (parse_benchmark_results (some content)).memory_usage_mb
              = some (v * 1024)) ∧
         (u = "MB" →
            (parse_benchmark_results (some content)).memory_usage_mb = some v))) ∧
    (parse_benchmark_results (some ("Memory usage: 2 GB"))).memory_usage_mb
      = some 2048 := by
  constructor
  · intro content v u h
    refine ⟨?_, ?_⟩ <;> intro hu <;> subst hu <;> rw [parse_memory_eq _ h] <;> simp
  · have h : findMemory (("Memory usage: 2 GB").toList) = some (2, "GB") := by decide
    rw [parse_memory_eq _ h]
    simp only [Option.some.injEq]
    norm_num

/-- Closed instance of `c4_memory_unit_conversion` with the hypothesis
discharged at a concrete input. -/
theorem c4_memory_unit_conversion_witness :
    (parse_benchmark_results (some ("memory usage: 3 MB"))).memory_usage_mb
      = some 3 :=
  (c4_memory_unit_conversion.1 ("memory usage: 3 MB") 3 ("MB") (by decide)).2 rfl

/-- Counterexample to C5 as stated: for the input `cache hit rate: 250%`
the cache-hit-rate pattern matches with percentage value 250, and the
stored value 250/100 = 2.5 is not in the interval [0,1]. -/
theorem c5_hit_rate_counterexample :
    (parse_benchmark_results (some ("cache hit rate: 250%"))).cache_hit_rate
        = some (250 / 100) ∧
    ¬ ((250 / 100 : ℚ) ≤ 1) := by
  constructor
  · have h : findCache (("cache hit rate: 250%").toList) = some 250 := by decide
    exact parse_cache_eq _ h
  · norm_num

/-- C5 (amended): whenever the cache hit rate pattern matches with numeric
percentage value `v`, the parser stores `cache_hit_rate` as `v / 100`; the
stored value is nonnegative, and lies in [0,1] whenever `v ≤ 100`; in
particular an input containing `Cache Hit Rate: 92.5%` parses to 0.925. -/
theorem c5_hit_rate_amended :
    (∀ (content : String) (v : ℚ),
      findCache content.toList = some v →
        (parse_benchmark_results (some content)).cache_hit_rate = some (v / 100) ∧
        0 ≤ v / 100 ∧ (v ≤ 100 → v / 100 ≤ 1)) ∧
    (parse_benchmark_results (some ("Cache Hit Rate: 92.5%"))).cache_hit_rate
      = some (925 / 1000) := by
  constructor
  · intro content v h
    refine ⟨parse_cache_eq _ h, ?_, ?_⟩
    · exact div_nonneg (findCache_nonneg h) (by norm_num)
    · intro hv
      exact (div_le_one (by norm_num)).mpr hv
  · have h : findCache (("Cache Hit Rate: 92.5%").toList)
        = some (92 + 5 / 10 ^ 1) := rfl
    rw [parse_cache_eq _ h]
    simp only [Option.some.injEq]
    norm_num

/-- Closed instance of `c5_hit_rate_amended` with the hypothesis discharged
at a concrete input. -/
theorem c5_hit_rate_amended_witness :
    (parse_benchmark_results (some ("cache hit rate: 50%"))).cache_hit_rate
        = some (50 / 100) ∧
    0 ≤ (50 : ℚ) / 100 ∧ ((50 : ℚ) ≤ 100 → (50 : ℚ) / 100 ≤ 1) :=
  c5_hit_rate_amended.1 ("cache hit rate: 50%") 50 (by decide)

/-- C6: a nonexistent results file and an empty results file both parse to
the empty metrics dictionary (no error is possible: the embedding is
total), and the driver then exits 0. -/
theorem c6_missing_or_empty_file (args : Args) :
    parse_benchmark_results none = Metrics.emptyDict ∧
    parse_benchmark_results (some ("")) = Metrics.emptyDict ∧
    mainExit none args = 0 ∧
    mainExit (some ("")) args = 0 :=
  ⟨rfl, by decide, rfl, rfl⟩

/-- C7: input texts expressing the same duration `d` (in milliseconds) in
ns, μs and ms respectively all parse to the same `p99_latency_ms` value,
namely `d` — the normalization to milliseconds is unit-independent; in the
rational-number model the agreement is exact. -/
theorem c7_unit_round_trip (d : ℚ) (s1 s2 s3 : String)
    (h1 : findP99 s1.toList = some (d * 1000000, "ns"))
    (h2 : findP99 s2.toList = some (d * 1000, "μs"))
    (h3 : findP99 s3.toList = some (d, "ms")) :
    (parse_benchmark_results (some s1)).p99_latency_ms = some d ∧
    (parse_benchmark_results (some s2)).p99_latency_ms = some d ∧
    (parse_benchmark_results (some s3)).p99_latency_ms = some d := by
  refine ⟨?_, ?_, ?_⟩
  · rw [parse_p99_eq _ h1, if_pos (rfl : ("ns" : String) = "ns"),
      Option.some.injEq, mul_div_assoc]
    norm_num
  · rw [parse_p99_eq _ h2, if_neg (by decide : ¬ ("μs" : String) = "ns"),
      if_pos (rfl : ("μs" : String) = "μs"), Option.some.injEq, mul_div_assoc]
    norm_num
  · rw [parse_p99_eq _ h3, if_neg (by decide : ¬ ("ms" : String) = "ns"),
      if_neg (by decide : ¬ ("ms" : String) = "μs")]

/-- Closed instance of `c7_unit_round_trip` at `d = 2` ms, with the three
hypotheses discharged at concrete inputs. -/
theorem c7_unit_round_trip_witness :
    (parse_benchmark_results
        (some ("input_latency 99th percentile: 2000000 ns"))).p99_latency_ms
      = some 2 ∧
    (parse_benchmark_results
        (some ("input_latency 99th percentile: 2000 μs"))).p99_latency_ms
      = some 2 ∧
    (parse_benchmark_results
        (some ("input_latency 99th percentile: 2 ms"))).p99_latency_ms
      = some 2 :=
  c7_unit_round_trip 2 ("input_latency 99th percentile: 2000000 ns")
    ("input_latency 99th percentile: 2000 μs")
    ("input_latency 99th percentile: 2 ms")
    ((by decide : findP99 (("input_latency 99th percentile: 2000000 ns").toList)
        = some (2000000, "ns")).trans (by norm_num))
    ((by decide : findP99 (("input_latency 99th percentile: 2000 μs").toList)
        = some (2000, "μs")).trans (by norm_num))
    (by decide)

/-- C8: the parser is a pure function of the file content — parsing the
same content twice yields identical metrics dictionaries (there is no
hidden state in the embedding, mirroring the source, which reads only its
argument and local variables). -/
theorem c8_parse_deterministic (file : Option String) :
    parse_benchmark_results file = parse_benchmark_results file := rfl

/-- The P99 field of the parser is absent when the search fails. -/
theorem parse_p99_none (content : String)
    (h : findP99 content.toList = none) :
    (parse_benchmark_results (some content)).p99_latency_ms = none := by
  show (findP99 content.toList).map _ = _
  rw [h]
  rfl

/-- The cache-hit-rate field of the parser is absent when the search
fails. -/
theorem parse_cache_none (content : String)
    (h : findCache content.toList = none) :
    (parse_benchmark_results (some content)).cache_hit_rate = none := by
  show (findCache content.toList).map _ = _
  rw [h]
  rfl

/-- The memory field of the parser is absent when the search fails. -/
theorem parse_memory_none (content : String)
    (h : findMemory content.toList = none) :
    (parse_benchmark_results (some content)).memory_usage_mb = none := by
  show (findMemory content.toList).map _ = _
  rw [h]
  rfl

/-- C9: every numeric value stored in the metrics dictionary returned by
the parser is nonnegative: the numeric pattern accepts only unsigned
decimal literals and every unit conversion multiplies or divides by a
positive constant. -/
theorem c9_parsed_values_nonneg (file : Option String) (v : ℚ) :
    ((parse_benchmark_results file).p99_latency_ms = some v → 0 ≤ v) ∧
    ((parse_benchmark_results file).cache_hit_rate = some v → 0 ≤ v) ∧
    ((parse_benchmark_results file).memory_usage_mb = some v → 0 ≤ v) := by
  rcases file with _ | content
  · refine ⟨?_, ?_, ?_⟩ <;> intro h <;>
      simp [parse_benchmark_results, Metrics.emptyDict] at h
  · refine ⟨?_, ?_, ?_⟩ <;> intro h
    · rcases hf : findP99 content.toList with _ | ⟨v0, u0⟩
      · rw [parse_p99_none content hf] at h
        exact absurd h (by simp)
      · rw [parse_p99_eq _ hf, Option.some.injEq] at h
        have h0 := findP99_nonneg hf
        rw [← h]
        split_ifs
        · exact div_nonneg h0 (by norm_num)
        · exact div_nonneg h0 (by norm_num)
        · exact h0
    · rcases hf : findCache content.toList with _ | v0
      · rw [parse_cache_none content hf] at h
        exact absurd h (by simp)
      · rw [parse_cache_eq _ hf, Option.some.injEq] at h
        rw [← h]
        exact div_nonneg (findCache_nonneg hf) (by norm_num)
    · rcases hf : findMemory content.toList with _ | ⟨v0, u0⟩
      · rw [parse_memory_none content hf] at h
        exact absurd h (by simp)
      · rw [parse_memory_eq _ hf, Option.some.injEq] at h
        have h0 := findMemory_nonneg hf
        rw [← h]
        split_ifs
        · exact mul_nonneg h0 (by norm_num)
        · exact h0

/-- Closed instance of `c9_parsed_values_nonneg` with the hypothesis
discharged at a concrete input. -/
theorem c9_parsed_values_nonneg_witness : (0 : ℚ) ≤ 25 :=
  (c9_parsed_values_nonneg (some ("memory usage: 25 MB")) 25).2.2 (by decide)
